import Mathlib

/-!
Verification of the per-connection tailing engine of the pingaic-log-viewer
repository: the rate limiter (`src/api/rateLimiter.js`), the noise
classifier, message extractor, log normalizer and polling session of
`src/ws/tailManager.js`.  JavaScript values are shallowly embedded:
numbers become `Int`, strings become `String`, absent / `null` /
`undefined` fields become `Option`, and JS truthiness of a string or
number field is made explicit (`""` and `0` are falsy).
-/

/-- JS truthiness of an optional string field: present and non-empty. -/
def truthy (o : Option String) : Bool :=
  match o with
  | some s => s != ""
  | none => false

/-- JS `a || b` for an optional string field against a string default:
the field's value when truthy, the default otherwise. -/
def jsOr (a : Option String) (b : String) : String :=
  match a with
  | some s => if s != "" then s else b
  | none => b

/-- JS `a || b` for an optional number field against a number default:
the field's value when truthy (non-zero), the default otherwise. -/
def jsOrInt (a : Option Int) (b : Int) : Int :=
  match a with
  | some x => if x != 0 then x else b
  | none => b

/-- JS `s.substring(0, n)`: the first `n` characters of `s`. -/
def truncStr (n : Nat) (s : String) : String :=
  ⟨s.data.take n⟩

theorem truncStr_length_le (n : Nat) (s : String) : (truncStr n s).length ≤ n := by
  simp only [truncStr, String.length, List.length_take]
  exact min_le_left _ _

/-! ## RateLimiter (`src/api/rateLimiter.js`) -/

/-- Mutable state of `class RateLimiter`: `limit`, `remaining`,
`resetTime` (milliseconds). -/
structure RateLimiter where
  limit : Int
  remaining : Int
  resetTime : Int
deriving DecidableEq, Repr

/-- The `RateLimiter` constructor: `limit = 60`, `remaining = 60`,
`resetTime = 0`. -/
def rlInit : RateLimiter :=
  { limit := 60, remaining := 60, resetTime := 0 }

/-- A quota object passed to `RateLimiter.update`; each field may be
absent (partial / missing headers). -/
structure Quota where
  limit : Option Int := none
  remaining : Option Int := none
  reset : Option Int := none
deriving DecidableEq, Repr

/-- `RateLimiter.update(rateLimit)`: `limit` and `reset` are guarded by JS
truthiness (`if (rateLimit.limit)`, `if (rateLimit.reset)`), so a present
but zero value does not overwrite; `remaining` is guarded by
`typeof rateLimit.remaining === 'number'`, so any present number
overwrites.  `reset` is converted from seconds to milliseconds. -/
def RateLimiter.update (rl : RateLimiter) (q : Quota) : RateLimiter :=
  { limit :=
      match q.limit with
      | some x => if x != 0 then x else rl.limit
      | none => rl.limit
    remaining :=
      match q.remaining with
      | some x => x
      | none => rl.remaining
    resetTime :=
      match q.reset with
      | some x => if x != 0 then x * 1000 else rl.resetTime
      | none => rl.resetTime }

/-- `RateLimiter.getDelay(minFrequencyMs)` at current time `now`. -/
def RateLimiter.getDelay (rl : RateLimiter) (now minFrequencyMs : Int) : Int :=
  if rl.remaining ≤ 1 ∧ now < rl.resetTime then
    max (rl.resetTime - now) minFrequencyMs
  else
    minFrequencyMs

/-- `RateLimiter.getStatus()`: a read-only snapshot of the three fields. -/
def RateLimiter.getStatus (rl : RateLimiter) : RateLimiter :=
  { limit := rl.limit, remaining := rl.remaining, resetTime := rl.resetTime }

/-- The rate-limiter state reached from the initial state by a history of
`update` calls. -/
def applyUpdates (qs : List Quota) : RateLimiter :=
  qs.foldl RateLimiter.update rlInit

/-! ## Noise classifier (`TailManager._buildNoiseSet` / `_isNoise`) -/

/-- One entry of the static noise-category catalog
(`data/categories.json`): `id`, exact `loggers`, and `prefixes`. -/
structure Category where
  id : String
  loggers : List String := []
  prefixes : List String := []
deriving DecidableEq, Repr

/-- Lookup in `this._categoryMap`, a `Map` built by inserting every
catalog entry in order (a later duplicate id overwrites an earlier one). -/
def catLookup (cats : List Category) (id : String) : Option Category :=
  cats.foldl (fun acc c => if c.id = id then some c else acc) none

/-- The loop body of `TailManager._buildNoiseSet`: iterate over the
enabled ids, skip unknown ids, append each found category's loggers to
the lookup set and its prefixes to the prefix list. -/
def buildNoiseAux (cats : List Category) (acc : List String × List String) :
    List String → List String × List String
  | [] => acc
  | id :: rest =>
    match catLookup cats id with
    | none => buildNoiseAux cats acc rest
    | some c => buildNoiseAux cats (acc.1 ++ c.loggers, acc.2 ++ c.prefixes) rest

/-- `TailManager._buildNoiseSet(enabledCategoryIds)`: returns the pair
(noise lookup set as a list, prefix list). -/
def buildNoiseSet (cats : List Category) (ids : List String) :
    List String × List String :=
  buildNoiseAux cats ([], []) ids

/-- `TailManager._isNoise(logger)`: exact membership in the noise set, or
a starts-with match against any active prefix. -/
def isNoise (noiseSet noisePrefixes : List String) (logger : String) : Bool :=
  noiseSet.contains logger || noisePrefixes.any (fun p => logger.startsWith p)

/-! ## Payload model (`TailManager._extractMessage` / `_processLogs`)

A structured log payload is modelled as a closed record of the optional
fields the code inspects.  A field that is absent, `null` or `undefined`
is `none`; object- and array-valued fields are always truthy when
present, while string fields use JS truthiness via `truthy`. -/

/-- The `principal` field: either a bare string or an array of strings
(`Array.isArray` distinguishes the two in the code). -/
inductive PrincVal where
  | pstr (s : String)
  | plist (xs : List String)
deriving DecidableEq, Repr

/-- The `info` object of an authentication entry. -/
structure EntryInfo where
  treeName : Option String := none
  displayName : Option String := none
  nodeType : Option String := none
  nodeOutcome : Option String := none
  authLevel : Option String := none
deriving DecidableEq, Repr

/-- One element of the `entries` array. -/
structure Entry where
  info : Option EntryInfo := none
deriving DecidableEq, Repr

/-- The `http.request` sub-object. -/
structure HttpReq where
  method : Option String := none
  path : Option String := none
deriving DecidableEq, Repr

/-- The `http` sub-object. -/
structure Http where
  request : Option HttpReq := none
deriving DecidableEq, Repr

/-- The top-level `response` sub-object (`statusCode` is numeric,
`status` is a string). -/
structure HttpResp where
  statusCode : Option Int := none
  status : Option String := none
deriving DecidableEq, Repr

/-- A structured log payload: every field `_extractMessage` and
`_processLogs` read. -/
structure Payload where
  message : Option String := none
  eventName : Option String := none
  result : Option String := none
  principal : Option PrincVal := none
  userId : Option String := none
  runAs : Option String := none
  component : Option String := none
  realm : Option String := none
  entries : Option (List Entry) := none
  http : Option Http := none
  response : Option HttpResp := none
  operation : Option String := none
  objectId : Option String := none
  status : Option String := none
  passwordChanged : Bool := false
  changedFields : Option (List String) := none
  logger : Option String := none
  topic : Option String := none
  timestamp : Option String := none
  transactionId : Option String := none
  trackingIds : Option (List String) := none
  level : Option String := none
  severity : Option String := none
deriving DecidableEq, Repr

/-- A raw payload as delivered by the remote API: a bare string or a
structured object. -/
inductive PayloadVal where
  | str (s : String)
  | obj (p : Payload)
deriving DecidableEq, Repr

/-! ### `TailManager._cleanPrincipal` -/

/-- Scan to the first comma: `some (before, after)` when a comma exists,
`none` otherwise.  Implements the regex fragment `([^,]+),` used by
`_cleanPrincipal` (together with the non-emptiness check below). -/
def takeUntilComma : List Char → Option (List Char × List Char)
  | [] => none
  | c :: rest =>
    if c = ',' then some ([], rest)
    else
      match takeUntilComma rest with
      | some (v, r) => some (c :: v, r)
      | none => none

/-- Match `^key([^,]+),` against `d`: when `d` starts with `key` and the
remainder has a non-empty comma-free segment before its first comma,
return that segment. -/
def matchCapture (key : List Char) (d : List Char) : Option String :=
  if d.take key.length = key then
    match takeUntilComma (d.drop key.length) with
    | some (v, _) => if v.isEmpty then none else some ⟨v⟩
    | none => none
  else none

/-- `TailManager._cleanPrincipal(dn)`: extract the value of a leading
`id=...,` or `uid=...,` component of an LDAP DN, otherwise return the
input unchanged (including the falsy guard `if (!dn) return dn`). -/
def cleanPrincipal (dn : String) : String :=
  if dn = "" then dn
  else
    match matchCapture "id=".data dn.data with
    | some v => v
    | none =>
      match matchCapture "uid=".data dn.data with
      | some v => v
      | none => dn

/-! ### `TailManager._extractMessage` -/

/-- The chain `payload.principal || payload.userId || payload.runAs`. -/
def principalChain (p : Payload) : Option PrincVal :=
  match p.principal with
  | some (.pstr s) =>
    if s != "" then some (.pstr s)
    else
      match p.userId with
      | some u =>
        if u != "" then some (.pstr u)
        else p.runAs.map .pstr
      | none => p.runAs.map .pstr
  | some (.plist xs) => some (.plist xs)
  | none =>
    match p.userId with
    | some u =>
      if u != "" then some (.pstr u)
      else p.runAs.map .pstr
    | none => p.runAs.map .pstr

/-- The principal fragment: take the first element when the principal is
an array, apply DN cleaning, and push only a truthy value. -/
def principalPart (p : Payload) : List String :=
  match principalChain p with
  | none => []
  | some pv =>
    let who : Option String :=
      match pv with
      | .pstr s => if s != "" then some s else none
      | .plist xs =>
        match xs.head? with
        | some x => if x != "" then some x else none
        | none => none
    match who with
    | some w => [cleanPrincipal w]
    | none => []

/-- The authentication-node fragment built from the first entry's `info`:
tree name, display name (or node type), outcome, auth level, joined with
`" > "`. -/
def entriesPart (p : Payload) : List String :=
  match p.entries with
  | some (e :: _) =>
    match e.info with
    | some i =>
      let nodeParts :=
        (if truthy i.treeName then [i.treeName.getD ""] else [])
        ++ (if truthy i.displayName then [i.displayName.getD ""]
            else if truthy i.nodeType then [i.nodeType.getD ""] else [])
        ++ (if truthy i.nodeOutcome then ["-> " ++ i.nodeOutcome.getD ""] else [])
        ++ (if truthy i.authLevel && (i.authLevel.getD "" != "0") then
              ["level=" ++ i.authLevel.getD ""] else [])
      if nodeParts.isEmpty then [] else [String.intercalate " > " nodeParts]
    | none => []
  | _ => []

/-- The `"-> statusCode"` (or `"-> status"`) fragment from the top-level
`response` object. -/
def respPart (resp : HttpResp) : List String :=
  match resp.statusCode with
  | some c =>
    if c != 0 then ["-> " ++ toString c]
    else if truthy resp.status then ["-> " ++ resp.status.getD ""] else []
  | none =>
    if truthy resp.status then ["-> " ++ resp.status.getD ""] else []

/-- The HTTP fragment: `method + " " + path` from `http.request`,
followed by the response fragment when a `response` object exists. -/
def httpPart (p : Payload) : List String :=
  match p.http with
  | some h =>
    match h.request with
    | some req =>
      (jsOr req.method "" ++ " " ++ jsOr req.path "")
        :: (match p.response with
            | some resp => respPart resp
            | none => [])
    | none => []
  | none => []

/-- The bracketed changed-fields fragment: first five names, with an
ellipsis marker when more than five. -/
def changedFieldsPart (p : Payload) : List String :=
  match p.changedFields with
  | some xs =>
    if xs.isEmpty then []
    else
      ["[" ++ String.intercalate ", " (xs.take 5)
        ++ (if xs.length > 5 then ", ..." else "") ++ "]"]
  | none => []

/-- The ordered fragment list of `_extractMessage` step 3. -/
def msgParts (p : Payload) : List String :=
  (if truthy p.eventName then [p.eventName.getD ""] else [])
  ++ (if truthy p.result then [p.result.getD ""] else [])
  ++ principalPart p
  ++ (if truthy p.component then [p.component.getD ""] else [])
  ++ (if truthy p.realm && (p.realm.getD "" != "/") then [p.realm.getD ""] else [])
  ++ entriesPart p
  ++ httpPart p
  ++ (if truthy p.operation then [p.operation.getD ""] else [])
  ++ (if truthy p.objectId then [p.objectId.getD ""] else [])
  ++ (if truthy p.status then [p.status.getD ""] else [])
  ++ (if p.passwordChanged then ["passwordChanged"] else [])
  ++ changedFieldsPart p

/-- `TailManager._extractMessage(payload)`: a bare string is truncated;
a payload with a truthy `message` and neither `entries` nor `http` short
circuits to that message; otherwise the fragments are joined with
`" | "`, falling back to `message` when no fragment was produced; every
return site truncates to 500 characters. -/
def extractMessage : PayloadVal → String
  | .str s => truncStr 500 s
  | .obj p =>
    if truthy p.message && p.entries.isNone && p.http.isNone then
      truncStr 500 (p.message.getD "")
    else
      let parts := msgParts p
      if parts.isEmpty && truthy p.message then truncStr 500 (p.message.getD "")
      else truncStr 500 (String.intercalate " | " parts)

/-! ### `TailManager._processLogs` -/

/-- A raw log record from the remote API. -/
structure RawRecord where
  timestamp : Option String := none
  source : Option String := none
  type : Option String := none
  payload : Option PayloadVal := none
deriving DecidableEq, Repr

/-- JS truthiness of `raw.payload`: absent and the empty string are
falsy, every object is truthy. -/
def payloadTruthy : Option PayloadVal → Bool
  | none => false
  | some (.str s) => s != ""
  | some (.obj _) => true

/-- The coercion `typeof payload === 'string' ? { message: payload } :
payload`. -/
def coercePayload : PayloadVal → Payload
  | .str s => { message := some s }
  | .obj p => p

/-- A normalized display record as pushed by `_processLogs`. -/
structure DisplayRecord where
  timestamp : String
  source : String
  type : String
  level : String
  logger : String
  transactionId : String
  message : String
  payload : Payload
deriving DecidableEq, Repr

/-- The display record built for one raw record with coerced payload
`p`. -/
def mkDisplay (raw : RawRecord) (p : Payload) : DisplayRecord :=
  { timestamp := jsOr raw.timestamp (jsOr p.timestamp "")
    source := jsOr raw.source ""
    type := jsOr raw.type ""
    level := jsOr p.level (jsOr p.severity "")
    logger := jsOr p.logger (jsOr p.eventName (jsOr p.component
      (jsOr p.topic (jsOr raw.type ""))))
    transactionId := jsOr p.transactionId (jsOr (p.trackingIds.bind List.head?) "")
    message := extractMessage (.obj p)
    payload := p }

/-- The loop body of `_processLogs` for one raw record: skip falsy
payloads, apply the noise filter, otherwise produce the display
record. -/
def processOne (noiseSet noisePrefixes : List String) (raw : RawRecord) :
    Option DisplayRecord :=
  match raw.payload with
  | none => none
  | some pv =>
    if !payloadTruthy (some pv) then none
    else
      let p := coercePayload pv
      let hasNoise := !noiseSet.isEmpty || !noisePrefixes.isEmpty
      if hasNoise && truthy p.logger && isNoise noiseSet noisePrefixes (p.logger.getD "") then
        none
      else if hasNoise && (raw.type == some "text/plain") && noiseSet.contains "text/plain" then
        none
      else some (mkDisplay raw p)

/-- `TailManager._processLogs(rawLogs)`. -/
def processLogs (noiseSet noisePrefixes : List String) (raws : List RawRecord) :
    List DisplayRecord :=
  raws.filterMap (processOne noiseSet noisePrefixes)

/-! ## TailManager session state machine (`src/ws/tailManager.js`)

The async `poll` method is split at its single suspension point (the
`await this.logClient.tail(...)`): `pollStart` is the synchronous part
up to issuing the fetch, `pollComplete` is the continuation that runs
when the fetch settles.  Client messages, fetch settlements and timer
fires are the events of the session; each handler runs atomically, as on
the single-threaded JS event loop. -/

/-- An outstanding fetch; `aborted` records that `stop` has fired the
fetch's `AbortController`. -/
structure Fetch where
  aborted : Bool
deriving DecidableEq, Repr

/-- A message sent to the client over the WebSocket. -/
inductive Emission where
  | connected
  | logs (logs : List DisplayRecord) (rateLimit : RateLimiter) (resultCount : Option Int)
  | error (msg : String)
deriving DecidableEq, Repr

/-- The per-connection state of a `TailManager`. -/
structure SessionState where
  hasClient : Bool
  polling : Bool
  cookie : Option String
  pollFrequency : Int
  noiseSet : List String
  noisePrefixes : List String
  timer : Option Int
  inFlight : Option Fetch
  rateLimiter : RateLimiter
  wsReady : Bool
  sources : String
deriving DecidableEq, Repr

/-- The state of a freshly constructed `TailManager` on an open
WebSocket. -/
def initSession : SessionState :=
  { hasClient := false, polling := false, cookie := none,
    pollFrequency := 10000, noiseSet := [], noisePrefixes := [],
    timer := none, inFlight := none, rateLimiter := rlInit,
    wsReady := true, sources := "" }

/-- `TailManager._send(data)`: emit only while the socket is open
(`readyState === 1`). -/
def send (s : SessionState) (m : Emission) : List Emission :=
  if s.wsReady then [m] else []

/-- `TailManager.stop()`: stop polling, clear any pending timer, abort
any in-flight fetch. -/
def SessionState.stop (s : SessionState) : SessionState :=
  { s with polling := false, timer := none,
           inFlight := s.inFlight.map (fun _ => { aborted := true }) }

/-- The synchronous prefix of `TailManager.poll()`: clear the timer slot,
guard on `polling` and socket readiness, and issue one cancellable
fetch. -/
def pollStart (s : SessionState) : SessionState :=
  let s0 := { s with timer := none }
  if s0.polling && s0.wsReady then { s0 with inFlight := some { aborted := false } }
  else s0

/-- The successful result of `logClient.tail`: parsed body fields plus
out-of-band quota metadata. -/
structure TailResult where
  rateLimit : Quota := {}
  pagedResultsCookie : Option String := none
  result : Option (List RawRecord) := none
  resultCount : Option Int := none
deriving DecidableEq, Repr

/-- A rejection value of `logClient.tail`: the fields the `catch` block
of `poll` inspects.  `data` holds the already-stringified response body
when present. -/
structure ErrObj where
  error : Option String := none
  statusCode : Option Int := none
  retryAfter : Option Int := none
  rateLimit : Option Quota := none
  data : Option String := none
deriving DecidableEq, Repr

/-- How the awaited fetch settled. -/
inductive FetchOutcome where
  | success (r : TailResult)
  | rejected (e : ErrObj)
deriving DecidableEq, Repr

/-- Whether an outcome is a rejection. -/
def FetchOutcome.isRejected : FetchOutcome → Bool
  | .success _ => false
  | .rejected _ => true

/-- The error text of the generic failure branch:
`e.data ? "API error <status>: <data>" : (e.error || 'Unknown error')`. -/
def errMsgOf (e : ErrObj) : String :=
  match e.data with
  | some d =>
    "API error "
      ++ (match e.statusCode with
          | some c => toString c
          | none => "undefined")
      ++ ": " ++ d
  | none => jsOr e.error "Unknown error"

/-- The `finally` block of `poll`: schedule the next cycle after
`getDelay` unless stopped or a timer was already set (self-healing). -/
def finalize (now : Int) (s : SessionState) (ems : List Emission) :
    SessionState × List Emission :=
  if s.polling && s.timer.isNone then
    ({ s with timer := some (s.rateLimiter.getDelay now s.pollFrequency) }, ems)
  else (s, ems)

/-- The continuation of `poll` once the fetch settles: the success path
(update quota, advance cookie, emit one batch), the `catch` block
(silent return on abort/stop, 429 advisory with explicit backoff,
generic error), and the `finally` block. -/
def pollComplete (now : Int) (s : SessionState) (o : FetchOutcome) :
    SessionState × List Emission :=
  match o with
  | .success r =>
    let s1 := { s with inFlight := none,
                       rateLimiter := s.rateLimiter.update r.rateLimit }
    let s2 := if truthy r.pagedResultsCookie then { s1 with cookie := r.pagedResultsCookie }
              else s1
    let logs := processLogs s2.noiseSet s2.noisePrefixes (r.result.getD [])
    let ems := send s2 (.logs logs s2.rateLimiter.getStatus r.resultCount)
    finalize now s2 ems
  | .rejected e =>
    let s1 := { s with inFlight := none }
    if e.error == some "aborted" || !s1.polling then
      finalize now s1 []
    else if e.statusCode == some 429 then
      let retry := jsOrInt e.retryAfter 60
      let s2 := { s1 with rateLimiter := s1.rateLimiter.update (e.rateLimit.getD {}) }
      let ems := send s2 (.error ("Rate limited — retrying in " ++ toString retry ++ "s"))
      let s3 := if s2.polling then { s2 with timer := some (retry * 1000) } else s2
      finalize now s3 ems
    else
      let ems := send s1 (.error (errMsgOf e))
      finalize now s1 ems

/-- The value of the `sources` field of a `start_tail` message: an array
of source ids, or any truthy non-array value (on which `.join` throws a
`TypeError`). -/
inductive SourcesVal where
  | arr (xs : List String)
  | invalid
deriving DecidableEq, Repr

/-- A parsed client control message.  `connect` carries whether the
`LogClient` constructor accepts the supplied origin; `other` is any
message whose `type` matches no `switch` case. -/
inductive ClientMsg where
  | connect (originValid : Bool)
  | startTail (enabledNoiseCategories : Option (List String))
      (pollFrequency : Option Int) (sources : Option SourcesVal)
  | stopTail
  | updateFilters (enabledNoiseCategories : Option (List String))
  | other
deriving DecidableEq, Repr

/-- `TailManager.start()`: precondition check, then begin polling and run
the first cycle up to its fetch. -/
def SessionState.start (s : SessionState) : SessionState × List Emission :=
  if !s.hasClient then (s, send s (.error "Not connected"))
  else (pollStart { s with polling := true }, [])

/-- `TailManager.handleMessage(msg)` over the static catalog `cats`.
Returns the new state, the emissions, and whether the handler threw
(`connect` with an invalid origin; `start_tail` whose `sources` has no
`.join`).  Mutations made before the throwing statement are kept. -/
def handleMessage (cats : List Category) (s : SessionState) :
    ClientMsg → SessionState × List Emission × Bool
  | .connect ok =>
    if ok then
      let s1 := { s with hasClient := true }
      (s1, send s1 .connected, false)
    else (s, [], true)
  | .startTail enc pf src =>
    let s1 :=
      match enc with
      | some ids =>
        let bp := buildNoiseSet cats ids
        { s with noiseSet := bp.1, noisePrefixes := bp.2 }
      | none => s
    let s2 := { s1 with pollFrequency := jsOrInt pf 10 * 1000, cookie := none }
    match src with
    | some .invalid => (s2, [], true)
    | some (.arr xs) =>
      let s3 := { s2 with sources := String.intercalate "," xs }
      let r := s3.start
      (r.1, r.2, false)
    | none =>
      let s3 := { s2 with sources := String.intercalate "," ["am-everything", "idm-everything"] }
      let r := s3.start
      (r.1, r.2, false)
  | .stopTail => (s.stop, [], false)
  | .updateFilters enc =>
    match enc with
    | some ids =>
      let bp := buildNoiseSet cats ids
      ({ s with noiseSet := bp.1, noisePrefixes := bp.2 }, [], false)
    | none => (s, [], false)
  | .other => (s, [], false)

/-- A raw frame received on the WebSocket: either unparseable JSON or a
parsed control message. -/
inductive RawMsg where
  | unparseable
  | parsed (m : ClientMsg)
deriving DecidableEq, Repr

/-- The `ws.on('message')` handler installed by the constructor:
`JSON.parse` inside `try`, dispatch to `handleMessage`, and a single
`"Invalid message format"` error on any throw. -/
def wsHandler (cats : List Category) (s : SessionState) :
    RawMsg → SessionState × List Emission
  | .unparseable => (s, send s (.error "Invalid message format"))
  | .parsed m =>
    let r := handleMessage cats s m
    if r.2.2 then (r.1, r.2.1 ++ send r.1 (.error "Invalid message format"))
    else (r.1, r.2.1)

/-! ### Internal events after the handlers return

The remaining asynchronous activity of a session consists of the pending
fetch settling and the scheduled timer firing.  `logClient._request`
never settles an aborted request with a success value (`req.destroy()`
on abort, and abort-classed errors return without settling), so a fetch
whose controller was aborted can only reject, or never settle at all. -/

/-- An internal (non-client) event: the awaited fetch settles, or the
poll timer fires. -/
inductive IEvent where
  | fetchComplete (o : FetchOutcome)
  | timerFire
deriving DecidableEq, Repr

/-- Whether an internal event can occur in state `s`: a settlement needs
an outstanding fetch, an aborted fetch can only reject, and a timer can
only fire while scheduled. -/
def stepOK (s : SessionState) : IEvent → Bool
  | .fetchComplete o =>
    match s.inFlight with
    | some f => !f.aborted || o.isRejected
    | none => false
  | .timerFire => s.timer.isSome

/-- Run one internal event at time `now`. -/
def istep (now : Int) (s : SessionState) : IEvent → SessionState × List Emission
  | .fetchComplete o => pollComplete now s o
  | .timerFire => (pollStart { s with timer := none }, [])

/-- Run a timed list of internal events, collecting every emission. -/
def runI (s : SessionState) : List (Int × IEvent) → SessionState × List Emission
  | [] => (s, [])
  | (t, e) :: rest =>
    let r := istep t s e
    let r2 := runI r.1 rest
    (r2.1, r.2 ++ r2.2)

/-- Whether a timed list of internal events is possible from `s`. -/
def consistentRun (s : SessionState) : List (Int × IEvent) → Bool
  | [] => true
  | (t, e) :: rest => stepOK s e && consistentRun (istep t s e).1 rest

/-- A session on which `stop` has taken effect: not polling, no pending
timer, any in-flight fetch aborted. -/
def quiescent (s : SessionState) : Bool :=
  !s.polling && s.timer.isNone &&
    (match s.inFlight with
     | some f => f.aborted
     | none => true)

/-! ## Helper lemmas -/

theorem buildNoiseAux_fst_mem (cats : List Category) (ids : List String)
    (acc : List String × List String) (x : String) :
    x ∈ (buildNoiseAux cats acc ids).1 ↔
      x ∈ acc.1 ∨ ∃ id ∈ ids, ∃ c, catLookup cats id = some c ∧ x ∈ c.loggers := by
  induction ids generalizing acc with
  | nil => simp [buildNoiseAux]
  | cons id rest ih =>
    cases h : catLookup cats id with
    | none =>
      simp only [buildNoiseAux, h, ih, List.mem_cons]
      constructor
      · rintro (ha | ⟨i, hi, c, hc, hx⟩)
        · exact Or.inl ha
        · exact Or.inr ⟨i, Or.inr hi, c, hc, hx⟩
      · rintro (ha | ⟨i, hi | hi, c, hc, hx⟩)
        · exact Or.inl ha
        · rw [hi] at hc; rw [h] at hc; cases hc
        · exact Or.inr ⟨i, hi, c, hc, hx⟩
    | some c0 =>
      simp only [buildNoiseAux, h, ih, List.mem_cons, List.mem_append]
      constructor
      · rintro ((ha | hx) | ⟨i, hi, c, hc, hx⟩)
        · exact Or.inl ha
        · exact Or.inr ⟨id, Or.inl rfl, c0, h, hx⟩
        · exact Or.inr ⟨i, Or.inr hi, c, hc, hx⟩
      · rintro (ha | ⟨i, hi | hi, c, hc, hx⟩)
        · exact Or.inl (Or.inl ha)
        · rw [hi] at hc; rw [h] at hc; cases hc; exact Or.inl (Or.inr hx)
        · exact Or.inr ⟨i, hi, c, hc, hx⟩

theorem buildNoiseAux_snd_mem (cats : List Category) (ids : List String)
    (acc : List String × List String) (x : String) :
    x ∈ (buildNoiseAux cats acc ids).2 ↔
      x ∈ acc.2 ∨ ∃ id ∈ ids, ∃ c, catLookup cats id = some c ∧ x ∈ c.prefixes := by
  induction ids generalizing acc with
  | nil => simp [buildNoiseAux]
  | cons id rest ih =>
    cases h : catLookup cats id with
    | none =>
      simp only [buildNoiseAux, h, ih, List.mem_cons]
      constructor
      · rintro (ha | ⟨i, hi, c, hc, hx⟩)
        · exact Or.inl ha
        · exact Or.inr ⟨i, Or.inr hi, c, hc, hx⟩
      · rintro (ha | ⟨i, hi | hi, c, hc, hx⟩)
        · exact Or.inl ha
        · rw [hi] at hc; rw [h] at hc; cases hc
        · exact Or.inr ⟨i, hi, c, hc, hx⟩
    | some c0 =>
      simp only [buildNoiseAux, h, ih, List.mem_cons, List.mem_append]
      constructor
      · rintro ((ha | hx) | ⟨i, hi, c, hc, hx⟩)
        · exact Or.inl ha
        · exact Or.inr ⟨id, Or.inl rfl, c0, h, hx⟩
        · exact Or.inr ⟨i, Or.inr hi, c, hc, hx⟩
      · rintro (ha | ⟨i, hi | hi, c, hc, hx⟩)
        · exact Or.inl (Or.inl ha)
        · rw [hi] at hc; rw [h] at hc; cases hc; exact Or.inl (Or.inr hx)
        · exact Or.inr ⟨i, hi, c, hc, hx⟩

theorem buildNoiseAux_filter (cats : List Category) (ids : List String)
    (acc : List String × List String) :
    buildNoiseAux cats acc (ids.filter fun id => (catLookup cats id).isSome) =
      buildNoiseAux cats acc ids := by
  induction ids generalizing acc with
  | nil => rfl
  | cons id rest ih =>
    cases h : catLookup cats id with
    | none => simp [List.filter_cons, h, buildNoiseAux, ih]
    | some c0 => simp [List.filter_cons, h, buildNoiseAux, ih]

theorem processOne_falsy (ns np : List String) (r : RawRecord)
    (h : payloadTruthy r.payload = false) : processOne ns np r = none := by
  cases hp : r.payload with
  | none => simp [processOne, hp]
  | some pv => rw [hp] at h; simp [processOne, hp, h]

/-! ## Claim theorems -/

/-- C3: for every rate-limiter state reachable by any history of `update`
calls and every `minIntervalMs`, `getDelay` returns
`max(resetAt - now, minIntervalMs)` when `remaining <= 1` and `resetAt`
is strictly in the future, and returns `minIntervalMs` in every other
case. -/
theorem getDelay_spec (qs : List Quota) (now m : Int) :
    ((applyUpdates qs).remaining ≤ 1 ∧ now < (applyUpdates qs).resetTime →
      (applyUpdates qs).getDelay now m = max ((applyUpdates qs).resetTime - now) m) ∧
    (1 < (applyUpdates qs).remaining ∨ (applyUpdates qs).resetTime ≤ now →
      (applyUpdates qs).getDelay now m = m) := by
  constructor
  · intro h
    simp [RateLimiter.getDelay, h]
  · intro h
    have hn : ¬((applyUpdates qs).remaining ≤ 1 ∧ now < (applyUpdates qs).resetTime) := by
      omega
    simp [RateLimiter.getDelay, hn]

/-- Witness for C3: a history leaving `remaining = 0` and `resetAt`
5000 ms with `now = 1000` yields a delay of `max 4000 7 = 4000`. -/
theorem getDelay_spec_witness :
    (applyUpdates [{ remaining := some 0, reset := some 5 }]).getDelay 1000 7 =
      max ((applyUpdates [{ remaining := some 0, reset := some 5 }]).resetTime - 1000) 7 :=
  (getDelay_spec [{ remaining := some 0, reset := some 5 }] 1000 7).1 (by decide)

/-- C4 counterexample: the quota `{ limit: 0 }` has its `limit` field
present, yet `update` leaves the stored `limit` at 60 instead of
overwriting it with 0, because the code guards with JS truthiness
(`if (rateLimit.limit)`), not presence. -/
theorem update_zero_limit_not_overwritten :
    (Quota.limit { limit := some 0 } = some 0) ∧
      rlInit.update { limit := some 0 } = rlInit ∧
      (rlInit.update { limit := some 0 }).limit ≠ 0 := by
  decide

/-- C4 amended: `remaining` overwrites whenever present (it is guarded by
a `typeof` check); `limit` and `reset` overwrite only when present and
non-zero (JS truthiness), `reset` being scaled to milliseconds; every
absent field leaves the stored value unchanged. -/
theorem update_fieldwise_overwrite (rl : RateLimiter) (q : Quota) :
    (q.limit = none → (rl.update q).limit = rl.limit) ∧
    (∀ x, q.limit = some x → x ≠ 0 → (rl.update q).limit = x) ∧
    (∀ x, q.limit = some x → x = 0 → (rl.update q).limit = rl.limit) ∧
    (q.remaining = none → (rl.update q).remaining = rl.remaining) ∧
    (∀ x, q.remaining = some x → (rl.update q).remaining = x) ∧
    (q.reset = none → (rl.update q).resetTime = rl.resetTime) ∧
    (∀ x, q.reset = some x → x ≠ 0 → (rl.update q).resetTime = x * 1000) ∧
    (∀ x, q.reset = some x → x = 0 → (rl.update q).resetTime = rl.resetTime) := by
  refine ⟨?_, ?_, ?_, ?_, ?_, ?_, ?_, ?_⟩
  · intro h; simp [RateLimiter.update, h]
  · intro x hx hne; simp [RateLimiter.update, hx, hne]
  · intro x hx he; simp [RateLimiter.update, hx, he]
  · intro h; simp [RateLimiter.update, h]
  · intro x hx; simp [RateLimiter.update, hx]
  · intro h; simp [RateLimiter.update, h]
  · intro x hx hne; simp [RateLimiter.update, hx, hne]
  · intro x hx he; simp [RateLimiter.update, hx, he]

/-- Witness for the amended C4: a present `remaining = 5` overwrites the
stored value. -/
theorem update_fieldwise_overwrite_witness :
    (rlInit.update { remaining := some 5 }).remaining = 5 :=
  (update_fieldwise_overwrite rlInit { remaining := some 5 }).2.2.2.2.1 5 rfl

/-- C6: for every input payload, bare string or structured object of any
shape, `_extractMessage` returns a string of at most 500 characters. -/
theorem extractMessage_length_le_500 (pv : PayloadVal) :
    (extractMessage pv).length ≤ 500 := by
  cases pv with
  | str s => exact truncStr_length_le _ _
  | obj p =>
    simp only [extractMessage]
    split_ifs <;> exact truncStr_length_le _ _

/-- C10: `_buildNoiseSet` silently skips every enabled id that is not in
the static catalog — the built set and prefix list equal those built
from the recognized ids alone (and the build is a total function, so it
never fails). -/
theorem buildNoiseSet_skips_unknown_ids (cats : List Category) (ids : List String) :
    buildNoiseSet cats ids =
      buildNoiseSet cats (ids.filter fun id => (catLookup cats id).isSome) := by
  unfold buildNoiseSet
  exact (buildNoiseAux_filter cats ids ([], [])).symm

/-- C9: `_processLogs` omits every raw record whose payload is absent or
falsy, and the batch contains display records only for records carrying
a truthy payload: the batch is unchanged by pre-filtering on payload
truthiness, and a record with a falsy payload maps to nothing. -/
theorem processLogs_skips_falsy_payloads (ns np : List String) (raws : List RawRecord) :
    processLogs ns np raws =
      processLogs ns np (raws.filter fun r => payloadTruthy r.payload)
    ∧ ∀ r : RawRecord, payloadTruthy r.payload = false → processOne ns np r = none := by
  constructor
  · induction raws with
    | nil => rfl
    | cons r rest ih =>
      by_cases h : payloadTruthy r.payload
      · simp only [processLogs, List.filter_cons, h, if_pos, List.filterMap_cons] at *
        cases processOne ns np r <;> simp_all
      · have hn := processOne_falsy ns np r (by simp [h])
        simp only [processLogs, List.filter_cons, h, List.filterMap_cons, hn] at *
        simpa using ih
  · intro r h
    exact processOne_falsy ns np r h

/-- Witness for C9: a record with an absent payload produces no display
record. -/
theorem processLogs_skips_falsy_payloads_witness :
    processOne [] [] { payload := none } = none :=
  (processLogs_skips_falsy_payloads [] [] []).2 { payload := none } rfl

/-- C5: for every catalog, enabled-id set and logger name, `_isNoise`
over the filter built by `_buildNoiseSet` returns true iff the logger is
in the union of the selected categories' exact-logger sets or starts
with one of the selected categories' prefixes; in particular it is false
for a logger absent from all selected categories. -/
theorem isNoise_iff_selected (cats : List Category) (ids : List String) (logger : String) :
    isNoise (buildNoiseSet cats ids).1 (buildNoiseSet cats ids).2 logger = true ↔
      ∃ id ∈ ids, ∃ c, catLookup cats id = some c ∧
        (logger ∈ c.loggers ∨ ∃ p ∈ c.prefixes, logger.startsWith p = true) := by
  simp only [isNoise, buildNoiseSet, Bool.or_eq_true, List.elem_iff,
    decide_eq_true_eq, List.any_eq_true, List.contains]
  constructor
  · rintro (hmem | ⟨p, hp, hsw⟩)
    · rcases (buildNoiseAux_fst_mem cats ids ([], []) logger).mp hmem with h | ⟨i, hi, c, hc, hx⟩
      · cases h
      · exact ⟨i, hi, c, hc, Or.inl hx⟩
    · rcases (buildNoiseAux_snd_mem cats ids ([], []) p).mp hp with h | ⟨i, hi, c, hc, hx⟩
      · cases h
      · exact ⟨i, hi, c, hc, Or.inr ⟨p, hx, hsw⟩⟩
  · rintro ⟨i, hi, c, hc, hx | ⟨p, hp, hsw⟩⟩
    · exact Or.inl ((buildNoiseAux_fst_mem cats ids ([], []) logger).mpr
        (Or.inr ⟨i, hi, c, hc, hx⟩))
    · exact Or.inr ⟨p, (buildNoiseAux_snd_mem cats ids ([], []) p).mpr
        (Or.inr ⟨i, hi, c, hc, hp⟩), hsw⟩

theorem takeUntilComma_cons_comma (cs : List Char) :
    takeUntilComma (',' :: cs) = some ([], cs) := by
  simp [takeUntilComma]

theorem takeUntilComma_cons_ne (c : Char) (cs : List Char) (h : ¬c = ',') :
    takeUntilComma (c :: cs) =
      match takeUntilComma cs with
      | some (v, r) => some (c :: v, r)
      | none => none := by
  simp [takeUntilComma, h]

theorem takeUntilComma_append (v r : List Char) (hc : ',' ∉ v) :
    takeUntilComma (v ++ ',' :: r) = some (v, r) := by
  induction v with
  | nil => exact takeUntilComma_cons_comma r
  | cons c cs ih =>
    have hne : ¬c = ',' := fun h => hc (h ▸ List.mem_cons_self c cs)
    have hcs : ',' ∉ cs := fun h => hc (List.mem_cons_of_mem c h)
    rw [List.cons_append, takeUntilComma_cons_ne c _ hne, ih hcs]

theorem takeUntilComma_eq_some (l v r : List Char)
    (h : takeUntilComma l = some (v, r)) : l = v ++ ',' :: r ∧ ',' ∉ v := by
  induction l generalizing v r with
  | nil => simp [takeUntilComma] at h
  | cons c cs ih =>
    by_cases hc : c = ','
    · subst hc
      rw [takeUntilComma_cons_comma] at h
      injection h with h
      rw [Prod.mk.injEq] at h
      obtain ⟨h1, h2⟩ := h
      subst h1
      subst h2
      exact ⟨rfl, List.not_mem_nil ','⟩
    · rw [takeUntilComma_cons_ne c cs hc] at h
      cases htc : takeUntilComma cs with
      | none => simp only [htc] at h; cases h
      | some vr =>
        obtain ⟨v0, r0⟩ := vr
        simp only [htc] at h
        injection h with h
        rw [Prod.mk.injEq] at h
        obtain ⟨h1, h2⟩ := h
        subst h2
        obtain ⟨hl, hnm⟩ := ih v0 r0 htc
        subst hl
        rw [← h1]
        refine ⟨rfl, ?_⟩
        intro hmem
        rcases List.mem_cons.mp hmem with h3 | h3
        · exact hc h3.symm
        · exact hnm h3

theorem matchCapture_append (key v r : List Char) (hv : v ≠ []) (hc : ',' ∉ v) :
    matchCapture key (key ++ (v ++ ',' :: r)) = some ⟨v⟩ := by
  unfold matchCapture
  rw [List.take_left, if_pos rfl, List.drop_left, takeUntilComma_append v r hc]
  simp [List.isEmpty_iff, hv]

theorem matchCapture_eq_some (key d : List Char) (w : String)
    (h : matchCapture key d = some w) :
    ∃ v r, w = ⟨v⟩ ∧ v ≠ [] ∧ ',' ∉ v ∧ d = key ++ (v ++ ',' :: r) := by
  unfold matchCapture at h
  by_cases ht : d.take key.length = key
  · rw [if_pos ht] at h
    cases htc : takeUntilComma (d.drop key.length) with
    | none => simp only [htc] at h; cases h
    | some vr =>
      obtain ⟨v, r⟩ := vr
      simp only [htc] at h
      by_cases hemp : v.isEmpty = true
      · rw [if_pos hemp] at h; cases h
      · rw [if_neg hemp] at h
        injection h with h
        obtain ⟨hl, hnm⟩ := takeUntilComma_eq_some _ v r htc
        refine ⟨v, r, h.symm, ?_, hnm, ?_⟩
        · intro he; rw [he] at hemp; exact hemp rfl
        · conv_lhs => rw [← List.take_append_drop key.length d]
          rw [ht, hl]
  · rw [if_neg ht] at h; cases h

/-- The hypothesis of C8's positive case: the input starts with
`id=<value>,` or `uid=<value>,`, where `<value>` is the non-empty
comma-free text up to the first comma. -/
def startsPat (s : String) : Prop :=
  (∃ v rest : String, v ≠ "" ∧ ',' ∉ v.data ∧ s = "id=" ++ v ++ "," ++ rest) ∨
  (∃ v rest : String, v ≠ "" ∧ ',' ∉ v.data ∧ s = "uid=" ++ v ++ "," ++ rest)

theorem data_ne_nil (s : String) (h : s ≠ "") : s.data ≠ [] := by
  intro hd
  apply h
  cases s with
  | mk l =>
    cases hd
    rfl

theorem id_pattern_data (v rest : String) :
    ("id=" ++ v ++ "," ++ rest).data = "id=".data ++ (v.data ++ ',' :: rest.data) := by
  show (("id=".data ++ v.data) ++ [',']) ++ rest.data = "id=".data ++ (v.data ++ ',' :: rest.data)
  simp

theorem uid_pattern_data (v rest : String) :
    ("uid=" ++ v ++ "," ++ rest).data = "uid=".data ++ (v.data ++ ',' :: rest.data) := by
  show (("uid=".data ++ v.data) ++ [',']) ++ rest.data = "uid=".data ++ (v.data ++ ',' :: rest.data)
  simp

theorem cleanPrincipal_id (v rest : String) (hv : v ≠ "") (hc : ',' ∉ v.data) :
    cleanPrincipal ("id=" ++ v ++ "," ++ rest) = v := by
  have hvd := data_ne_nil v hv
  have hne : "id=" ++ v ++ "," ++ rest ≠ "" := by
    intro he
    have hd := congrArg String.data he
    rw [id_pattern_data] at hd
    simp at hd
  have hmc : matchCapture "id=".data ("id=" ++ v ++ "," ++ rest).data = some v := by
    rw [id_pattern_data]
    exact matchCapture_append "id=".data v.data rest.data hvd hc
  unfold cleanPrincipal
  rw [if_neg hne, hmc]

theorem cleanPrincipal_uid (v rest : String) (hv : v ≠ "") (hc : ',' ∉ v.data) :
    cleanPrincipal ("uid=" ++ v ++ "," ++ rest) = v := by
  have hvd := data_ne_nil v hv
  have hne : "uid=" ++ v ++ "," ++ rest ≠ "" := by
    intro he
    have hd := congrArg String.data he
    rw [uid_pattern_data] at hd
    simp at hd
  have hmc1 : matchCapture "id=".data ("uid=" ++ v ++ "," ++ rest).data = none := by
    unfold matchCapture
    rw [if_neg ?_]
    rw [uid_pattern_data]
    show ¬(((['u', 'i', 'd', '='] ++ v.data) ++ [',']) ++ rest.data).take 3 = ['i', 'd', '=']
    simp [List.take]
  have hmc2 : matchCapture "uid=".data ("uid=" ++ v ++ "," ++ rest).data = some v := by
    rw [uid_pattern_data]
    exact matchCapture_append "uid=".data v.data rest.data hvd hc
  unfold cleanPrincipal
  rw [if_neg hne, hmc1, hmc2]

theorem cleanPrincipal_unchanged (s : String) (h : ¬startsPat s) : cleanPrincipal s = s := by
  by_cases hdn : s = ""
  · simp [cleanPrincipal, hdn]
  · unfold cleanPrincipal
    rw [if_neg hdn]
    cases h1 : matchCapture "id=".data s.data with
    | some w =>
      exfalso
      obtain ⟨v, r, hw, hv, hnm, hd⟩ := matchCapture_eq_some _ _ _ h1
      apply h
      left
      refine ⟨⟨v⟩, ⟨r⟩, ?_, hnm, ?_⟩
      · intro he
        exact hv (congrArg String.data he)
      · apply String.ext
        rw [hd, id_pattern_data]
    | none =>
      cases h2 : matchCapture "uid=".data s.data with
      | some w =>
        exfalso
        obtain ⟨v, r, hw, hv, hnm, hd⟩ := matchCapture_eq_some _ _ _ h2
        apply h
        right
        refine ⟨⟨v⟩, ⟨r⟩, ?_, hnm, ?_⟩
        · intro he
          exact hv (congrArg String.data he)
        · apply String.ext
          rw [hd, uid_pattern_data]
      | none => rfl

/-- C8: `_cleanPrincipal` returns the captured value when the input
starts with `id=<value>,` or `uid=<value>,` — the value being the
non-empty comma-free text up to the first comma, as captured by the
regexes `^id=([^,]+),` and `^uid=([^,]+),` — and returns the input
unchanged for every string starting with neither pattern. -/
theorem cleanPrincipal_spec (s : String) :
    (∀ v rest : String, v ≠ "" → ',' ∉ v.data → s = "id=" ++ v ++ "," ++ rest →
        cleanPrincipal s = v) ∧
    (∀ v rest : String, v ≠ "" → ',' ∉ v.data → s = "uid=" ++ v ++ "," ++ rest →
        cleanPrincipal s = v) ∧
    (¬startsPat s → cleanPrincipal s = s) := by
  refine ⟨?_, ?_, ?_⟩
  · intro v rest hv hc he
    rw [he]
    exact cleanPrincipal_id v rest hv hc
  · intro v rest hv hc he
    rw [he]
    exact cleanPrincipal_uid v rest hv hc
  · exact cleanPrincipal_unchanged s

/-- Witness for C8: the spec's own example `id=alice,ou=user,dc=x`
cleans to `alice`. -/
theorem cleanPrincipal_spec_witness :
    cleanPrincipal "id=alice,ou=user,dc=x" = "alice" :=
  (cleanPrincipal_spec "id=alice,ou=user,dc=x").1 "alice" "ou=user,dc=x"
    (by decide) (by decide) rfl

/-- C7 counterexample: the parseable but malformed message
`{type:'start_tail', pollFrequency:5, sources:5}` (a truthy non-array
`sources`, on which `.join` throws) emits exactly one error, yet the
session state has already been mutated when the throw happens: the
handler set `pollFrequency` to 5000 and reset the cursor before reaching
the throwing statement, so the state is not left unchanged. -/
theorem malformed_start_tail_mutates_state :
    (wsHandler [] initSession (.parsed (.startTail none (some 5) (some .invalid)))).2 =
      [Emission.error "Invalid message format"] ∧
    (wsHandler [] initSession (.parsed (.startTail none (some 5) (some .invalid)))).1 ≠
      initSession := by
  constructor
  · rfl
  · decide

/-- C7 amended: every unparseable client message (a frame on which
`JSON.parse` throws) causes exactly one error response and leaves the
session state unchanged; a parseable control message whose fields are
malformed also produces a single error, but state mutated before the
handler's throwing statement is retained. -/
theorem unparseable_message_single_error (cats : List Category) (s : SessionState)
    (h : s.wsReady = true) :
    wsHandler cats s .unparseable = (s, [.error "Invalid message format"]) := by
  simp [wsHandler, send, h]

/-- Witness for the amended C7 at the initial session state. -/
theorem unparseable_message_single_error_witness :
    wsHandler [] initSession .unparseable =
      (initSession, [.error "Invalid message format"]) :=
  unparseable_message_single_error [] initSession rfl

/-- C2: a poll cycle completing while the session is polling (with no
timer pending and the socket open) emits exactly one batch on success
and schedules the next cycle after `getDelay` of the updated limiter;
emits exactly one advisory error on a 429 rejection and schedules the
next cycle after the server-advised wait (default 60 s); emits exactly
one descriptive error on any other rejection and schedules the next
cycle after `getDelay`; and when the fetch was cancelled because the
session stopped (`polling = false` at completion), emits nothing and
schedules nothing.  `pollComplete` is a total function, so no branch
throws. -/
theorem poll_cycle_classification (now : Int) (s : SessionState)
    (hT : s.timer = none) (hW : s.wsReady = true) :
    (∀ r : TailResult, s.polling = true →
      (pollComplete now s (.success r)).2 =
        [Emission.logs
          (processLogs s.noiseSet s.noisePrefixes (r.result.getD []))
          (s.rateLimiter.update r.rateLimit).getStatus r.resultCount] ∧
      (pollComplete now s (.success r)).1.timer =
        some ((s.rateLimiter.update r.rateLimit).getDelay now s.pollFrequency)) ∧
    (∀ e : ErrObj, s.polling = true → e.error ≠ some "aborted" → e.statusCode = some 429 →
      (pollComplete now s (.rejected e)).2 =
        [Emission.error
          ("Rate limited — retrying in " ++ toString (jsOrInt e.retryAfter 60) ++ "s")] ∧
      (pollComplete now s (.rejected e)).1.timer = some (jsOrInt e.retryAfter 60 * 1000)) ∧
    (∀ e : ErrObj, s.polling = true → e.error ≠ some "aborted" → e.statusCode ≠ some 429 →
      (pollComplete now s (.rejected e)).2 = [Emission.error (errMsgOf e)] ∧
      (pollComplete now s (.rejected e)).1.timer =
        some (s.rateLimiter.getDelay now s.pollFrequency)) ∧
    (∀ e : ErrObj, s.polling = false →
      (pollComplete now s (.rejected e)).2 = [] ∧
      (pollComplete now s (.rejected e)).1.timer = none) := by
  refine ⟨?_, ?_, ?_, ?_⟩
  · intro r hp
    by_cases hck : truthy r.pagedResultsCookie = true
    · simp [pollComplete, finalize, send, hck, hp, hT, hW]
    · simp [pollComplete, finalize, send, hck, hp, hT, hW]
  · intro e hp herr h429
    have h1 : (e.error == some "aborted") = false := by
      rw [beq_eq_false_iff_ne]
      exact herr
    simp [pollComplete, finalize, send, hp, hT, hW, h1, h429]
  · intro e hp herr h429
    have h1 : (e.error == some "aborted") = false := by
      rw [beq_eq_false_iff_ne]
      exact herr
    have h2 : (e.statusCode == some 429) = false := by
      rw [beq_eq_false_iff_ne]
      exact h429
    simp [pollComplete, finalize, send, hp, hT, hW, h1, h2]
  · intro e hp
    simp [pollComplete, finalize, hp, hT]

/-- Witness for C2: a 429 rejection with `retryAfter = 30` in a polling
session emits one advisory error and schedules the retry after 30 s. -/
theorem poll_cycle_classification_witness :
    (pollComplete 0 { initSession with polling := true, hasClient := true }
        (.rejected { statusCode := some 429, retryAfter := some 30 })).2 =
      [Emission.error
        ("Rate limited — retrying in "
          ++ toString (jsOrInt (some (30 : Int)) 60) ++ "s")] ∧
    (pollComplete 0 { initSession with polling := true, hasClient := true }
        (.rejected { statusCode := some 429, retryAfter := some 30 })).1.timer =
      some (jsOrInt (some (30 : Int)) 60 * 1000) :=
  (poll_cycle_classification 0 _ rfl rfl).2.1
    { statusCode := some 429, retryAfter := some 30 } rfl (by decide) rfl

theorem stop_quiescent (s : SessionState) : quiescent s.stop = true := by
  simp only [quiescent, SessionState.stop]
  cases s.inFlight <;> simp

theorem istep_quiescent (now : Int) (s : SessionState) (e : IEvent)
    (hq : quiescent s = true) (hok : stepOK s e = true) :
    (istep now s e).2 = [] ∧ quiescent (istep now s e).1 = true := by
  simp only [quiescent, Bool.and_eq_true, Bool.not_eq_true', Option.isNone_iff_eq_none] at hq
  obtain ⟨⟨hp, ht⟩, hf⟩ := hq
  cases e with
  | timerFire =>
    exfalso
    simp only [stepOK, ht, Option.isSome_none] at hok
    cases hok
  | fetchComplete o =>
    cases hif : s.inFlight with
    | none => rw [stepOK, hif] at hok; cases hok
    | some f =>
      simp only [hif] at hf
      simp only [stepOK, hif] at hok
      rw [hf] at hok
      simp only [Bool.not_true, Bool.false_or] at hok
      cases o with
      | success r => cases hok
      | rejected e0 =>
        simp [istep, pollComplete, finalize, hp, ht, quiescent]

theorem runI_quiescent (evs : List (Int × IEvent)) :
    ∀ s : SessionState, quiescent s = true → consistentRun s evs = true →
      (runI s evs).2 = [] := by
  induction evs with
  | nil =>
    intro s hq hc
    rfl
  | cons te rest ih =>
    intro s hq hc
    obtain ⟨t, e⟩ := te
    simp only [consistentRun, Bool.and_eq_true] at hc
    obtain ⟨hok, hcr⟩ := hc
    obtain ⟨hem, hq2⟩ := istep_quiescent t s e hq hok
    simp only [runI, hem, List.nil_append]
    exact ih (istep t s e).1 hq2 hcr

/-- C1: once `stop` has taken effect (polling cleared, the pending timer
cancelled, the outstanding fetch aborted), no sequence of consistent
internal events — settlements of the aborted fetch, timer fires — emits
any further `logs` or `error` message for the session; in particular
none for a fetch outstanding at the moment of the stop, since an aborted
fetch can only reject or never settle. -/
theorem stop_tail_silences_session (s : SessionState) (evs : List (Int × IEvent))
    (h : consistentRun s.stop evs = true) : (runI s.stop evs).2 = [] :=
  runI_quiescent evs s.stop (stop_quiescent s) h

/-- Witness for C1: stopping a polling session with an outstanding fetch,
after which the aborted fetch settles by rejection, emits nothing. -/
theorem stop_tail_silences_session_witness :
    (runI
      (SessionState.stop
        { initSession with
            polling := true
            hasClient := true
            inFlight := some { aborted := false } })
      [(0, .fetchComplete (.rejected { error := some "socket hang up" }))]).2 = [] :=
  stop_tail_silences_session
    { initSession with
        polling := true
        hasClient := true
        inFlight := some { aborted := false } }
    [(0, .fetchComplete (.rejected { error := some "socket hang up" }))]
    (by decide)
